import Mathlib

/-!
Shallow embedding of the IndexedDB helper module `db.js` of the car-dispatch
application, together with proofs of the specified properties.

The store holds four tables:
* `families` — keyed by the natural key `familyName` (string);
* `cars` — keyed by the natural key `id` (string);
* `savedStates` and `savedParking` — retention logs with an engine-assigned
  auto-increment surrogate key and a non-unique `timestamp` index.

Stateful IndexedDB code is embedded as explicit state passing: each exported
function of `db.js` becomes a Lean function from the module-level connection
(`Option DBState`, `none` before `openDB` has succeeded) and its arguments to a
pair of the settled promise outcome (`Except DBError α`) and the connection
state after the call.  A rejected outcome commits nothing, matching IndexedDB
transaction-abort semantics.  Individual request failures that depend on the
environment (invalid records in `bulkPut`, I/O faults in `clear`) are modelled
by an explicit success predicate passed to the operation.
-/

/-- A family record: natural key `familyName`, the `order` attribute (absent
fields of the JS object are `none`), and the remaining fields, opaque to the
store. -/
structure Family where
  familyName : String
  order : Option Int
  payload : String
  deriving DecidableEq, Repr

/-- A car record: natural key `id`, remaining fields opaque. -/
structure Car where
  id : String
  payload : String
  deriving DecidableEq, Repr

/-- The caller-supplied data of a retention-log append (`stateData` /
`parkingData`): it carries no surrogate key; the engine assigns one. -/
structure LogRecord where
  name : String
  timestamp : Int
  payload : String
  deriving DecidableEq, Repr

/-- A stored retention-log row: the engine-assigned auto-increment key `id`
plus the record data. -/
structure Row where
  id : Nat
  name : String
  timestamp : Int
  payload : String
  deriving DecidableEq, Repr

/-- A retention-log table: its rows and the auto-increment key generator.
IndexedDB key generators start at 1 and are not reset by `clear()`. -/
structure LogState where
  rows : List Row
  nextId : Nat
  deriving DecidableEq, Repr

/-- The whole store: the four object stores of `CarDispatchDB` version 2. -/
structure DBState where
  families : List Family
  cars : List Car
  savedStates : LogState
  savedParking : LogState
  deriving DecidableEq, Repr

/-- Rejection reasons: the `DB not open` rejection every entry point raises
before `openDB` succeeds, and an underlying request/transaction failure. -/
inductive DBError where
  | notOpen
  | storage
  deriving DecidableEq, Repr

/-- Names of the four object stores, for `clearAllData`. -/
inductive StoreName where
  | families
  | cars
  | savedStates
  | savedParking
  deriving DecidableEq, Repr

/-- IndexedDB `store.put` on a store with an in-line key path: insert-or-replace
by key.  A row whose key equals the new record's key is fully replaced in place
(its position in the store is determined by the key, which is unchanged);
otherwise the record is inserted as a new row. -/
def putBy {α κ : Type} (key : α → κ) [DecidableEq κ] : List α → α → List α
  | [], f => [f]
  | g :: gs, f => if key g = key f then f :: gs else g :: putBy key gs f

/-- IndexedDB `store.get(k)`: the row whose key is `k`, if any. -/
def findBy {α κ : Type} (key : α → κ) [DecidableEq κ] (tbl : List α) (k : κ) : Option α :=
  tbl.find? (fun g => decide (key g = k))

/-- IndexedDB `store.delete(k)`: removes the row with key `k`; deleting an
absent key is a no-op, not an error. -/
def deleteBy {α κ : Type} (key : α → κ) [DecidableEq κ] (tbl : List α) (k : κ) : List α :=
  tbl.filter (fun g => decide (key g ≠ k))

/-- `store.put(family)` on the `families` store (keyPath `familyName`). -/
def putFamily (tbl : List Family) (f : Family) : List Family :=
  putBy Family.familyName tbl f

/-- `store.put(car)` on the `cars` store (keyPath `id`). -/
def putCar (tbl : List Car) (c : Car) : List Car :=
  putBy Car.id tbl c

/-- The loop body shared by `bulkAddFamilies` and `bulkAddCars`: issue one put
per record inside the open transaction; the first failing put aborts the whole
transaction (`tx.abort()`), so nothing is committed; if every put succeeds the
transaction completes with all puts applied.  `ok` tells whether an individual
put request succeeds (`request.onerror` fires when it does not). -/
def bulkPutLoop {α κ : Type} (key : α → κ) [DecidableEq κ] (ok : α → Bool) :
    List α → List α → Option (List α)
  | tbl, [] => some tbl
  | tbl, f :: fs => if ok f then bulkPutLoop key ok (putBy key tbl f) fs else none

/-- The table contents after a sequence of individual put calls (`addFamily` /
`addCar` repeatedly), applied first-to-last. -/
def applyPuts {α κ : Type} (key : α → κ) [DecidableEq κ] (tbl : List α) (ps : List α) : List α :=
  ps.foldl (putBy key) tbl

/-- Ascending iteration order of the non-unique `timestamp` index, as IndexedDB
defines it for `index.openCursor(null, "next")`: entries sorted by index key
(`timestamp`), ties among equal index keys ordered by ascending primary key. -/
def tsIdLe (a b : Row) : Prop :=
  a.timestamp < b.timestamp ∨ (a.timestamp = b.timestamp ∧ a.id ≤ b.id)

instance : DecidableRel tsIdLe := fun a b =>
  inferInstanceAs (Decidable (a.timestamp < b.timestamp ∨
    (a.timestamp = b.timestamp ∧ a.id ≤ b.id)))

instance : IsTotal Row tsIdLe where
  total a b := by
    unfold tsIdLe
    omega

instance : IsTrans Row tsIdLe where
  trans a b c hab hbc := by
    unfold tsIdLe at hab hbc ⊢
    omega

/-- Primary-key (ascending) iteration order of an object store: what
`store.getAll()` returns. -/
def idLe (a b : Row) : Prop := a.id ≤ b.id

instance : DecidableRel idLe := fun a b => inferInstanceAs (Decidable (a.id ≤ b.id))

instance : IsTotal Row idLe where
  total a b := by
    unfold idLe
    omega

instance : IsTrans Row idLe where
  trans a b c hab hbc := by
    unfold idLe at hab hbc ⊢
    omega

/-- The JS sort comparator `(a, b) => b.timestamp - a.timestamp` used by
`getAllSavedStates` and `getAllSavedParking`: descending by timestamp.
`Array.prototype.sort` is a stable sort. -/
def tsDesc (a b : Row) : Prop := b.timestamp ≤ a.timestamp

instance : DecidableRel tsDesc := fun a b =>
  inferInstanceAs (Decidable (b.timestamp ≤ a.timestamp))

instance : IsTotal Row tsDesc where
  total a b := by
    unfold tsDesc
    omega

instance : IsTrans Row tsDesc where
  trans a b c hab hbc := by
    unfold tsDesc at hab hbc ⊢
    omega

/-- `store.getAll()` on a retention log: every row, in ascending primary-key
order. -/
def storeGetAll (s : LogState) : List Row :=
  List.insertionSort idLe s.rows

/-- `store.put(data)` on a retention log: the record carries no key, so the
auto-increment generator assigns the next key and the row is appended. -/
def LogState.putNew (s : LogState) (d : LogRecord) : LogState :=
  { rows := s.rows ++ [⟨s.nextId, d.name, d.timestamp, d.payload⟩],
    nextId := s.nextId + 1 }

/-- The body of `addSavedState` (lines 397-420 of db.js): (1) put the record;
(2) count the rows; (3) if `count > limit`, walk the `timestamp` index with an
ascending cursor and delete the first `count - limit` entries. -/
def addSavedStateCore (s : LogState) (stateData : LogRecord) (limit : Nat) : LogState :=
  let s1 := s.putNew stateData
  let count := s1.rows.length
  if count > limit then
    let itemsToDelete := count - limit
    let victims := ((List.insertionSort tsIdLe s1.rows).take itemsToDelete).map Row.id
    { rows := s1.rows.filter (fun r => decide (r.id ∉ victims)), nextId := s1.nextId }
  else s1

/-- The body of `addSavedParking` (lines 491-513 of db.js).  The name-based
de-duplication is commented out in the source, leaving the algorithm identical
to `addSavedStateCore`: put, count, prune oldest-first via the ascending
`timestamp` index cursor. -/
def addSavedParkingCore (s : LogState) (parkingData : LogRecord) (limit : Nat) : LogState :=
  let s1 := s.putNew parkingData
  let count := s1.rows.length
  if count > limit then
    let itemsToDelete := count - limit
    let victims := ((List.insertionSort tsIdLe s1.rows).take itemsToDelete).map Row.id
    { rows := s1.rows.filter (fun r => decide (r.id ∉ victims)), nextId := s1.nextId }
  else s1

/-- `getAll()` then the in-place JS sort by descending timestamp: the value the
`getAllSavedStates` / `getAllSavedParking` promise resolves with. -/
def getAllDescendingCore (s : LogState) : List Row :=
  List.insertionSort tsDesc (storeGetAll s)

/-- Well-formedness of a retention log, maintained by the engine: surrogate
keys are pairwise distinct and below the key generator's next value. -/
def WF (s : LogState) : Prop :=
  (s.rows.map Row.id).Nodup ∧ ∀ r ∈ s.rows, r.id < s.nextId

instance : DecidablePred WF := fun s =>
  inferInstanceAs (Decidable ((s.rows.map Row.id).Nodup ∧ ∀ r ∈ s.rows, r.id < s.nextId))

/-- A fresh `CarDispatchDB`: all four stores empty, key generators at their
initial value 1. -/
def emptyDB : DBState :=
  ⟨[], [], ⟨[], 1⟩, ⟨[], 1⟩⟩

/-- The result of clearing all four stores: every table empty.  `clear()` does
not reset an auto-increment key generator. -/
def clearTables (s : DBState) : DBState :=
  { families := [], cars := [],
    savedStates := { rows := [], nextId := s.savedStates.nextId },
    savedParking := { rows := [], nextId := s.savedParking.nextId } }

/-- The `onupgradeneeded` handler (lines 37-94 of db.js): version-gated steps.
Step v1 creates the `families` and `cars` stores and, when seed data is
supplied, puts each seed family with `order` defaulted to its position index
(`family.order ?? index`) and each seed car verbatim.  Step v2 creates the two
retention-log stores (fresh empty logs in the state model, so no data change).
The `length > 0` guards of the source are subsumed by folding over the list. -/
def runUpgrade (oldVersion : Nat) (defaultFamilies : List Family) (defaultCars : List Car)
    (s : DBState) : DBState :=
  if oldVersion < 1 then
    { s with
      families := (defaultFamilies.enum).foldl
        (fun tbl p => putFamily tbl { p.2 with order := some (p.2.order.getD (Int.ofNat p.1)) })
        s.families,
      cars := defaultCars.foldl putCar s.cars }
  else s

/-- `openDB(defaultFamilies, defaultCars)`: if the module-level handle already
exists it is returned unchanged (idempotent); otherwise the store is opened at
target version 2, running `onupgradeneeded` first when the on-disk version
(`0` for a fresh store) is behind the target. -/
def openDB (conn : Option DBState) (oldVersion : Nat) (onDisk : DBState)
    (defaultFamilies : List Family) (defaultCars : List Car) :
    Except DBError Unit × Option DBState :=
  match conn with
  | some s => (.ok (), some s)
  | none =>
    if oldVersion < 2 then
      (.ok (), some (runUpgrade oldVersion defaultFamilies defaultCars onDisk))
    else
      (.ok (), some onDisk)

/-- `getFamily(familyName)` (lines 106-115). -/
def getFamily (conn : Option DBState) (familyName : String) :
    Except DBError (Option Family) × Option DBState :=
  match conn with
  | none => (.error .notOpen, none)
  | some s => (.ok (findBy Family.familyName s.families familyName), some s)

/-- `getAllFamilies()` (lines 121-130); engine order, not semantically
meaningful to callers. -/
def getAllFamilies (conn : Option DBState) :
    Except DBError (List Family) × Option DBState :=
  match conn with
  | none => (.error .notOpen, none)
  | some s => (.ok s.families, some s)

/-- `addFamily(family)` (lines 137-146): upsert by natural key. -/
def addFamily (conn : Option DBState) (family : Family) :
    Except DBError Unit × Option DBState :=
  match conn with
  | none => (.error .notOpen, none)
  | some s => (.ok (), some { s with families := putFamily s.families family })

/-- `updateFamily` is the same function as `addFamily` (line 148). -/
def updateFamily : Option DBState → Family → Except DBError Unit × Option DBState :=
  addFamily

/-- `bulkAddFamilies(families)` (lines 155-187): one transaction, abort on the
first failing put, commit only on transaction completion. -/
def bulkAddFamilies (conn : Option DBState) (families : List Family) (ok : Family → Bool) :
    Except DBError Unit × Option DBState :=
  match conn with
  | none => (.error .notOpen, none)
  | some s =>
    match bulkPutLoop Family.familyName ok s.families families with
    | some tbl => (.ok (), some { s with families := tbl })
    | none => (.error .storage, some s)

/-- `deleteFamily(familyName)` (lines 194-203). -/
def deleteFamily (conn : Option DBState) (familyName : String) :
    Except DBError Unit × Option DBState :=
  match conn with
  | none => (.error .notOpen, none)
  | some s => (.ok (), some { s with families := deleteBy Family.familyName s.families familyName })

/-- `clearFamilies()` (lines 209-218). -/
def clearFamilies (conn : Option DBState) :
    Except DBError Unit × Option DBState :=
  match conn with
  | none => (.error .notOpen, none)
  | some s => (.ok (), some { s with families := [] })

/-- `getCar(carId)` (lines 229-238). -/
def getCar (conn : Option DBState) (carId : String) :
    Except DBError (Option Car) × Option DBState :=
  match conn with
  | none => (.error .notOpen, none)
  | some s => (.ok (findBy Car.id s.cars carId), some s)

/-- `getAllCars()` (lines 244-253). -/
def getAllCars (conn : Option DBState) :
    Except DBError (List Car) × Option DBState :=
  match conn with
  | none => (.error .notOpen, none)
  | some s => (.ok s.cars, some s)

/-- `addCar(car)` (lines 260-269): upsert by natural key. -/
def addCar (conn : Option DBState) (car : Car) :
    Except DBError Unit × Option DBState :=
  match conn with
  | none => (.error .notOpen, none)
  | some s => (.ok (), some { s with cars := putCar s.cars car })

/-- `updateCar` is the same function as `addCar` (line 271). -/
def updateCar : Option DBState → Car → Except DBError Unit × Option DBState :=
  addCar

/-- `bulkAddCars(cars)` (lines 278-310). -/
def bulkAddCars (conn : Option DBState) (cars : List Car) (ok : Car → Bool) :
    Except DBError Unit × Option DBState :=
  match conn with
  | none => (.error .notOpen, none)
  | some s =>
    match bulkPutLoop Car.id ok s.cars cars with
    | some tbl => (.ok (), some { s with cars := tbl })
    | none => (.error .storage, some s)

/-- `deleteCar(carId)` (lines 317-326). -/
def deleteCar (conn : Option DBState) (carId : String) :
    Except DBError Unit × Option DBState :=
  match conn with
  | none => (.error .notOpen, none)
  | some s => (.ok (), some { s with cars := deleteBy Car.id s.cars carId })

/-- `clearCars()` (lines 332-341). -/
def clearCars (conn : Option DBState) :
    Except DBError Unit × Option DBState :=
  match conn with
  | none => (.error .notOpen, none)
  | some s => (.ok (), some { s with cars := [] })

/-- `getSavedState(id)` (lines 350-359). -/
def getSavedState (conn : Option DBState) (id : Nat) :
    Except DBError (Option Row) × Option DBState :=
  match conn with
  | none => (.error .notOpen, none)
  | some s => (.ok (findBy Row.id s.savedStates.rows id), some s)

/-- `getAllSavedStates()` (lines 365-383): fetch all rows, then sort in JS by
descending timestamp. -/
def getAllSavedStates (conn : Option DBState) :
    Except DBError (List Row) × Option DBState :=
  match conn with
  | none => (.error .notOpen, none)
  | some s => (.ok (getAllDescendingCore s.savedStates), some s)

/-- `addSavedState(stateData, limit = 5)` (lines 391-425). -/
def addSavedState (conn : Option DBState) (stateData : LogRecord) (limit : Nat) :
    Except DBError Unit × Option DBState :=
  match conn with
  | none => (.error .notOpen, none)
  | some s =>
    (.ok (), some { s with savedStates := addSavedStateCore s.savedStates stateData limit })

/-- `getSavedParking(id)` (lines 434-443). -/
def getSavedParking (conn : Option DBState) (id : Nat) :
    Except DBError (Option Row) × Option DBState :=
  match conn with
  | none => (.error .notOpen, none)
  | some s => (.ok (findBy Row.id s.savedParking.rows id), some s)

/-- `getAllSavedParking()` (lines 449-467). -/
def getAllSavedParking (conn : Option DBState) :
    Except DBError (List Row) × Option DBState :=
  match conn with
  | none => (.error .notOpen, none)
  | some s => (.ok (getAllDescendingCore s.savedParking), some s)

/-- `addSavedParking(parkingData, limit = 20)` (lines 476-519). -/
def addSavedParking (conn : Option DBState) (parkingData : LogRecord) (limit : Nat) :
    Except DBError Unit × Option DBState :=
  match conn with
  | none => (.error .notOpen, none)
  | some s =>
    (.ok (), some { s with savedParking := addSavedParkingCore s.savedParking parkingData limit })

/-- `deleteSavedState(id)` (lines 528-537). -/
def deleteSavedState (conn : Option DBState) (id : Nat) :
    Except DBError Unit × Option DBState :=
  match conn with
  | none => (.error .notOpen, none)
  | some s =>
    (.ok (), some { s with savedStates :=
      { rows := deleteBy Row.id s.savedStates.rows id, nextId := s.savedStates.nextId } })

/-- `deleteSavedParking(id)` (lines 544-553). -/
def deleteSavedParking (conn : Option DBState) (id : Nat) :
    Except DBError Unit × Option DBState :=
  match conn with
  | none => (.error .notOpen, none)
  | some s =>
    (.ok (), some { s with savedParking :=
      { rows := deleteBy Row.id s.savedParking.rows id, nextId := s.savedParking.nextId } })

/-- `clearAllData()` (lines 559-587): one read-write transaction over all four
stores; each is cleared; the first failing clear aborts the transaction
(nothing commits) and rejects with its error; otherwise the transaction
completes with every store empty.  `ok` tells whether an individual clear
request succeeds. -/
def clearAllData (conn : Option DBState) (ok : StoreName → Bool) :
    Except DBError Unit × Option DBState :=
  match conn with
  | none => (.error .notOpen, none)
  | some s =>
    if ok .families && ok .cars && ok .savedStates && ok .savedParking then
      (.ok (), some (clearTables s))
    else
      (.error .storage, some s)

theorem putNew_rows (s : LogState) (d : LogRecord) :
    (s.putNew d).rows = s.rows ++ [⟨s.nextId, d.name, d.timestamp, d.payload⟩] := rfl

theorem putNew_nextId (s : LogState) (d : LogRecord) :
    (s.putNew d).nextId = s.nextId + 1 := rfl

theorem WF_putNew {s : LogState} (h : WF s) (d : LogRecord) : WF (s.putNew d) := by
  obtain ⟨hnd, hlt⟩ := h
  constructor
  · rw [putNew_rows, List.map_append, List.nodup_append]
    refine ⟨hnd, List.nodup_singleton _, ?_⟩
    intro x hx hx2
    simp only [List.map_cons, List.map_nil, List.mem_singleton] at hx2
    subst hx2
    obtain ⟨r, hr, hrid⟩ := List.mem_map.mp hx
    exact absurd hrid (Nat.ne_of_lt (hlt r hr))
  · intro r hr
    rw [putNew_rows] at hr
    rw [putNew_nextId]
    rcases List.mem_append.mp hr with h1 | h1
    · exact Nat.lt_succ_of_lt (hlt r h1)
    · simp only [List.mem_singleton] at h1
      subst h1
      exact Nat.lt_succ_self _

theorem prune_perm {l : List Row} (k : Nat) (hnd : (l.map Row.id).Nodup) :
    List.Perm
      (l.filter (fun r => decide (r.id ∉ ((List.insertionSort tsIdLe l).take k).map Row.id)))
      ((List.insertionSort tsIdLe l).drop k) := by
  have hperm : List.Perm l (List.insertionSort tsIdLe l) :=
    (List.perm_insertionSort tsIdLe l).symm
  have hndsrt : ((List.insertionSort tsIdLe l).map Row.id).Nodup :=
    (hperm.map Row.id).nodup hnd
  have hsplit : List.insertionSort tsIdLe l =
      (List.insertionSort tsIdLe l).take k ++ (List.insertionSort tsIdLe l).drop k :=
    (List.take_append_drop k _).symm
  have hnd2 : (((List.insertionSort tsIdLe l).take k).map Row.id ++
      ((List.insertionSort tsIdLe l).drop k).map Row.id).Nodup := by
    rw [← List.map_append, ← hsplit]
    exact hndsrt
  have hdisj := (List.nodup_append.mp hnd2).2.2
  have h1 := hperm.filter (fun r => decide (r.id ∉ ((List.insertionSort tsIdLe l).take k).map Row.id))
  have htake : ((List.insertionSort tsIdLe l).take k).filter
      (fun r => decide (r.id ∉ ((List.insertionSort tsIdLe l).take k).map Row.id)) = [] := by
    rw [List.filter_eq_nil_iff]
    intro r hr
    simp only [decide_eq_true_eq, Decidable.not_not]
    exact List.mem_map_of_mem Row.id hr
  have hdrop : ((List.insertionSort tsIdLe l).drop k).filter
      (fun r => decide (r.id ∉ ((List.insertionSort tsIdLe l).take k).map Row.id)) =
      (List.insertionSort tsIdLe l).drop k := by
    rw [List.filter_eq_self]
    intro r hr
    simp only [decide_eq_true_eq]
    intro hmem
    exact hdisj hmem (List.mem_map_of_mem Row.id hr)
  have hfil : (List.insertionSort tsIdLe l).filter
      (fun r => decide (r.id ∉ ((List.insertionSort tsIdLe l).take k).map Row.id)) =
      (List.insertionSort tsIdLe l).drop k := by
    calc (List.insertionSort tsIdLe l).filter
          (fun r => decide (r.id ∉ ((List.insertionSort tsIdLe l).take k).map Row.id))
        = ((List.insertionSort tsIdLe l).take k ++ (List.insertionSort tsIdLe l).drop k).filter
          (fun r => decide (r.id ∉ ((List.insertionSort tsIdLe l).take k).map Row.id)) := by
          rw [List.take_append_drop]
      _ = (List.insertionSort tsIdLe l).drop k := by
          rw [List.filter_append, htake, hdrop, List.nil_append]
  rw [← hfil]
  exact h1

theorem addSavedStateCore_pos (s : LogState) (d : LogRecord) (limit : Nat)
    (hc : s.rows.length + 1 > limit) :
    addSavedStateCore s d limit =
      { rows := (s.putNew d).rows.filter (fun r => decide (r.id ∉
          ((List.insertionSort tsIdLe (s.putNew d).rows).take (s.rows.length + 1 - limit)).map Row.id)),
        nextId := s.nextId + 1 } := by
  have hlen : (s.putNew d).rows.length = s.rows.length + 1 := by
    rw [putNew_rows]; simp
  unfold addSavedStateCore
  simp only [hlen, putNew_nextId]
  rw [if_pos hc]

theorem addSavedStateCore_neg (s : LogState) (d : LogRecord) (limit : Nat)
    (hc : s.rows.length + 1 ≤ limit) :
    addSavedStateCore s d limit = s.putNew d := by
  have hlen : (s.putNew d).rows.length = s.rows.length + 1 := by
    rw [putNew_rows]; simp
  unfold addSavedStateCore
  simp only [hlen]
  rw [if_neg (by omega)]

theorem addSavedParkingCore_neg (s : LogState) (d : LogRecord) (limit : Nat)
    (hc : s.rows.length + 1 ≤ limit) :
    addSavedParkingCore s d limit = s.putNew d := by
  have hlen : (s.putNew d).rows.length = s.rows.length + 1 := by
    rw [putNew_rows]; simp
  unfold addSavedParkingCore
  simp only [hlen]
  rw [if_neg (by omega)]

/-- C1: For every sequence of append(record, capacity) calls on a retention log
(addSavedState or addSavedParking; the first conjunct shows the two entry points
run one and the same algorithm), after each successful call the table's row
count is at most the capacity supplied to that call and the table stays
well-formed, so the property propagates along any call sequence; and when an
append would exceed capacity, the surviving rows are exactly the table contents
minus the first count - capacity entries of the ascending (timestamp, surrogate
key) order — i.e. exactly count - capacity rows are removed, smallest timestamps
first, ties among equal timestamps broken by ascending surrogate key. -/
theorem addSavedState_retention (s : LogState) (d : LogRecord) (limit : Nat) (h : WF s) :
    addSavedParkingCore s d limit = addSavedStateCore s d limit ∧
    WF (addSavedStateCore s d limit) ∧
    (addSavedStateCore s d limit).rows.length ≤ limit ∧
    (s.rows.length + 1 > limit →
      List.Perm (addSavedStateCore s d limit).rows
        ((List.insertionSort tsIdLe (s.putNew d).rows).drop (s.rows.length + 1 - limit))) := by
  have hwf1 : WF (s.putNew d) := WF_putNew h d
  have hlen1 : (s.putNew d).rows.length = s.rows.length + 1 := by
    rw [putNew_rows]; simp
  refine ⟨rfl, ?_⟩
  by_cases hc : s.rows.length + 1 > limit
  · have hpos := addSavedStateCore_pos s d limit hc
    have hperm := prune_perm (l := (s.putNew d).rows) (s.rows.length + 1 - limit) hwf1.1
    have hsrtlen : (List.insertionSort tsIdLe (s.putNew d).rows).length = s.rows.length + 1 := by
      rw [(List.perm_insertionSort tsIdLe _).length_eq, hlen1]
    refine ⟨?_, ?_, fun _ => ?_⟩
    · rw [hpos]
      constructor
      · exact ((List.filter_sublist _).map Row.id).nodup hwf1.1
      · intro r hr
        have hr2 := List.mem_of_mem_filter hr
        have := hwf1.2 r hr2
        rw [putNew_nextId] at this
        exact this
    · rw [hpos]
      have := hperm.length_eq
      rw [this, List.length_drop, hsrtlen]
      omega
    · rw [hpos]
      exact hperm
  · have hneg := addSavedStateCore_neg s d limit (by omega)
    refine ⟨?_, ?_, fun hgt => absurd hgt hc⟩
    · rw [hneg]; exact hwf1
    · rw [hneg, hlen1]; omega

/-- Concrete instantiation of the C1 theorem: a one-row log at capacity 1. -/
theorem addSavedState_retention_witness :
    WF (⟨[⟨1, "a", 5, "x"⟩], 2⟩ : LogState) ∧
    (addSavedParkingCore ⟨[⟨1, "a", 5, "x"⟩], 2⟩ ⟨"b", 7, "y"⟩ 1 =
        addSavedStateCore ⟨[⟨1, "a", 5, "x"⟩], 2⟩ ⟨"b", 7, "y"⟩ 1 ∧
      WF (addSavedStateCore ⟨[⟨1, "a", 5, "x"⟩], 2⟩ ⟨"b", 7, "y"⟩ 1) ∧
      (addSavedStateCore ⟨[⟨1, "a", 5, "x"⟩], 2⟩ ⟨"b", 7, "y"⟩ 1).rows.length ≤ 1 ∧
      (([⟨1, "a", 5, "x"⟩] : List Row).length + 1 > 1 →
        List.Perm (addSavedStateCore ⟨[⟨1, "a", 5, "x"⟩], 2⟩ ⟨"b", 7, "y"⟩ 1).rows
          ((List.insertionSort tsIdLe ((⟨[⟨1, "a", 5, "x"⟩], 2⟩ : LogState).putNew ⟨"b", 7, "y"⟩).rows).drop
            (([⟨1, "a", 5, "x"⟩] : List Row).length + 1 - 1)))) :=
  ⟨by decide, addSavedState_retention ⟨[⟨1, "a", 5, "x"⟩], 2⟩ ⟨"b", 7, "y"⟩ 1 (by decide)⟩

theorem take_one_sorted_min {l : List Row} {v : Row}
    (hts : ∀ r ∈ l, v.timestamp < r.timestamp) :
    (List.insertionSort tsIdLe (l ++ [v])).take 1 = [v] := by
  have hperm := List.perm_insertionSort tsIdLe (l ++ [v])
  have hsorted := List.sorted_insertionSort tsIdLe (l ++ [v])
  cases hsrt : List.insertionSort tsIdLe (l ++ [v]) with
  | nil =>
    rw [hsrt] at hperm
    have : v ∈ ([] : List Row) := hperm.mem_iff.mpr (by simp)
    exact absurd this (List.not_mem_nil v)
  | cons r0 rest =>
    rw [hsrt] at hperm hsorted
    have hr0mem : r0 ∈ l ++ [v] := hperm.mem_iff.mp (List.mem_cons_self r0 rest)
    rcases List.mem_append.mp hr0mem with hr0l | hr0v
    · exfalso
      have hvmem : v ∈ r0 :: rest := hperm.mem_iff.mpr (by simp)
      have hvne : v ≠ r0 := by
        intro he
        have h2 := hts r0 hr0l
        rw [← he] at h2
        exact absurd h2 (lt_irrefl _)
      have hvrest : v ∈ rest := by
        rcases List.mem_cons.mp hvmem with h1 | h1
        · exact absurd h1 hvne
        · exact h1
      have hrel : tsIdLe r0 v := (List.sorted_cons.mp hsorted).1 v hvrest
      have h2 := hts r0 hr0l
      unfold tsIdLe at hrel
      omega
    · simp only [List.mem_singleton] at hr0v
      subst hr0v
      simp

/-- C10: append does not guarantee survival of the record it inserts: if the
table already holds capacity rows, all with timestamps strictly greater than the
new record's timestamp, then append inserts the record (the key generator
advances) and the prune deletes that same just-inserted record, leaving the
original rows untouched — survivors are chosen purely by largest timestamp, not
by recency of insertion.  Both addSavedState and addSavedParking behave so. -/
theorem append_inserted_record_evicted (s : LogState) (d : LogRecord) (limit : Nat)
    (h : WF s) (hlen : s.rows.length = limit)
    (hts : ∀ r ∈ s.rows, d.timestamp < r.timestamp) :
    addSavedParkingCore s d limit = addSavedStateCore s d limit ∧
    (addSavedStateCore s d limit).rows = s.rows ∧
    (addSavedStateCore s d limit).nextId = s.nextId + 1 := by
  have hpos := addSavedStateCore_pos s d limit (by omega)
  refine ⟨rfl, ?_, ?_⟩
  · rw [hpos]
    have hk : s.rows.length + 1 - limit = 1 := by omega
    rw [hk, putNew_rows,
      take_one_sorted_min (v := ⟨s.nextId, d.name, d.timestamp, d.payload⟩) hts]
    rw [List.filter_append]
    have hself : List.filter
        (fun r => decide (r.id ∉ List.map Row.id [(⟨s.nextId, d.name, d.timestamp, d.payload⟩ : Row)]))
        s.rows = s.rows := by
      rw [List.filter_eq_self]
      intro r hr
      simp only [List.map_cons, List.map_nil, List.mem_singleton, decide_eq_true_eq]
      exact Nat.ne_of_lt (h.2 r hr)
    rw [hself]
    simp
  · rw [hpos]

/-- C8: append on the SavedParking log never collapses entries by name: two
appends whose records share the same name (total count within capacity) leave
two distinct rows — the table ends with both rows appended, carrying distinct
surrogate keys; no de-duplication by name happens on the write path. -/
theorem addSavedParking_no_name_collapse (s : LogState) (nm p1 p2 : String) (ts1 ts2 : Int)
    (limit : Nat) (h : s.rows.length + 2 ≤ limit) :
    (addSavedParkingCore (addSavedParkingCore s ⟨nm, ts1, p1⟩ limit) ⟨nm, ts2, p2⟩ limit).rows
      = s.rows ++ [⟨s.nextId, nm, ts1, p1⟩, ⟨s.nextId + 1, nm, ts2, p2⟩] ∧
    (⟨s.nextId, nm, ts1, p1⟩ : Row).id ≠ (⟨s.nextId + 1, nm, ts2, p2⟩ : Row).id := by
  have h1 : addSavedParkingCore s ⟨nm, ts1, p1⟩ limit = s.putNew ⟨nm, ts1, p1⟩ :=
    addSavedParkingCore_neg s _ limit (by omega)
  have hlen1 : (s.putNew ⟨nm, ts1, p1⟩).rows.length = s.rows.length + 1 := by
    rw [putNew_rows]; simp
  have h2 : addSavedParkingCore (s.putNew ⟨nm, ts1, p1⟩) ⟨nm, ts2, p2⟩ limit =
      (s.putNew ⟨nm, ts1, p1⟩).putNew ⟨nm, ts2, p2⟩ :=
    addSavedParkingCore_neg _ _ limit (by rw [hlen1]; omega)
  constructor
  · rw [h1, h2]
    simp [LogState.putNew]
  · simp

/-- Concrete instantiation of the C8 theorem: two appends named "home" on an
empty log with capacity 20 leave two distinct rows. -/
theorem addSavedParking_no_name_collapse_witness :
    (addSavedParkingCore (addSavedParkingCore ⟨[], 1⟩ ⟨"home", 3, "m1"⟩ 20) ⟨"home", 9, "m2"⟩ 20).rows
      = ([] : List Row) ++ [⟨1, "home", 3, "m1"⟩, ⟨1 + 1, "home", 9, "m2"⟩] ∧
    (⟨1, "home", 3, "m1"⟩ : Row).id ≠ (⟨1 + 1, "home", 9, "m2"⟩ : Row).id :=
  addSavedParking_no_name_collapse ⟨[], 1⟩ "home" "m1" "m2" 3 9 20 (by decide)

/-- C2: appending 6 SavedState records with capacity 5 and strictly increasing
timestamps 1..6 to an initially empty store leaves the table containing exactly
the five records timestamped 2, 3, 4, 5, 6, in that order; no surviving record
has timestamp 1. -/
theorem savedState_capacity_scenario :
    ([(⟨"s1", 1, "a"⟩ : LogRecord), ⟨"s2", 2, "b"⟩, ⟨"s3", 3, "c"⟩, ⟨"s4", 4, "d"⟩,
        ⟨"s5", 5, "e"⟩, ⟨"s6", 6, "f"⟩].foldl
        (fun conn d => (addSavedState conn d 5).2) (some emptyDB)).map
        (fun db => db.savedStates.rows.map Row.timestamp) = some [2, 3, 4, 5, 6] ∧
    ([(⟨"s1", 1, "a"⟩ : LogRecord), ⟨"s2", 2, "b"⟩, ⟨"s3", 3, "c"⟩, ⟨"s4", 4, "d"⟩,
        ⟨"s5", 5, "e"⟩, ⟨"s6", 6, "f"⟩].foldl
        (fun conn d => (addSavedState conn d 5).2) (some emptyDB)).map
        (fun db => decide (∀ r ∈ db.savedStates.rows, r.timestamp ≠ 1)) = some true := by
  decide

/-- C5: for every stored set of rows, including sets with duplicate
timestamps, getAllSavedStates / getAllSavedParking resolve with the log's rows
sorted non-increasing by timestamp: the output is Sorted for the descending
timestamp order and is a permutation of the stored rows (all rows returned). -/
theorem getAllDescending_sorted (db : DBState) (t : LogState) :
    getAllSavedStates (some db) = (.ok (getAllDescendingCore db.savedStates), some db) ∧
    getAllSavedParking (some db) = (.ok (getAllDescendingCore db.savedParking), some db) ∧
    List.Sorted tsDesc (getAllDescendingCore t) ∧
    List.Perm (getAllDescendingCore t) t.rows := by
  refine ⟨rfl, rfl, ?_, ?_⟩
  · exact List.sorted_insertionSort tsDesc _
  · unfold getAllDescendingCore storeGetAll
    exact (List.perm_insertionSort tsDesc _).trans (List.perm_insertionSort idLe _)

/-- Concrete instantiation of the C10 theorem: a full log whose single row is
newer than the incoming record, which is therefore evicted immediately. -/
theorem append_inserted_record_evicted_witness :
    WF (⟨[⟨1, "a", 10, "x"⟩], 2⟩ : LogState) ∧
    ([(⟨1, "a", 10, "x"⟩ : Row)].length = 1) ∧
    (∀ r ∈ [(⟨1, "a", 10, "x"⟩ : Row)], (5 : Int) < r.timestamp) ∧
    (addSavedParkingCore ⟨[⟨1, "a", 10, "x"⟩], 2⟩ ⟨"b", 5, "y"⟩ 1 =
        addSavedStateCore ⟨[⟨1, "a", 10, "x"⟩], 2⟩ ⟨"b", 5, "y"⟩ 1 ∧
      (addSavedStateCore ⟨[⟨1, "a", 10, "x"⟩], 2⟩ ⟨"b", 5, "y"⟩ 1).rows = [⟨1, "a", 10, "x"⟩] ∧
      (addSavedStateCore ⟨[⟨1, "a", 10, "x"⟩], 2⟩ ⟨"b", 5, "y"⟩ 1).nextId = 2 + 1) :=
  ⟨by decide, by decide, by decide,
    append_inserted_record_evicted ⟨[⟨1, "a", 10, "x"⟩], 2⟩ ⟨"b", 5, "y"⟩ 1
      (by decide) (by decide) (by decide)⟩

theorem findBy_putBy {α κ : Type} (key : α → κ) [DecidableEq κ] (tbl : List α) (f : α) (k : κ) :
    findBy key (putBy key tbl f) k = if key f = k then some f else findBy key tbl k := by
  induction tbl with
  | nil =>
    unfold putBy findBy
    by_cases hk : key f = k
    · simp [hk]
    · simp [hk]
  | cons g gs ih =>
    unfold putBy
    by_cases hg : key g = key f
    · rw [if_pos hg]
      unfold findBy
      by_cases hk : key f = k
      · simp [hk]
      · have hgk : ¬ (key g = k) := by rw [hg]; exact hk
        simp [hk, hgk]
    · rw [if_neg hg]
      unfold findBy
      by_cases hgk : key g = k
      · have hfk : ¬ (key f = k) := by
          intro he
          exact hg (hgk.trans he.symm)
        simp [hgk, hfk]
      · unfold findBy at ih
        have hd : decide (key g = k) = false := decide_eq_false hgk
        simp only [List.find?_cons, hd]
        exact ih

theorem mem_map_key_putBy {α κ : Type} (key : α → κ) [DecidableEq κ]
    (tbl : List α) (f : α) (x : κ) :
    x ∈ (putBy key tbl f).map key → x ∈ tbl.map key ∨ x = key f := by
  induction tbl with
  | nil =>
    unfold putBy
    intro hx
    simp only [List.map_cons, List.map_nil, List.mem_singleton] at hx
    exact Or.inr hx
  | cons g gs ih =>
    unfold putBy
    by_cases hg : key g = key f
    · rw [if_pos hg]
      intro hx
      simp only [List.map_cons, List.mem_cons] at hx ⊢
      rcases hx with h1 | h1
      · exact Or.inr h1
      · exact Or.inl (Or.inr h1)
    · rw [if_neg hg]
      intro hx
      simp only [List.map_cons, List.mem_cons] at hx ⊢
      rcases hx with h1 | h1
      · exact Or.inl (Or.inl h1)
      · rcases ih h1 with h2 | h2
        · exact Or.inl (Or.inr h2)
        · exact Or.inr h2

theorem nodup_keys_putBy {α κ : Type} (key : α → κ) [DecidableEq κ]
    (tbl : List α) (f : α) (h : (tbl.map key).Nodup) :
    ((putBy key tbl f).map key).Nodup := by
  induction tbl with
  | nil =>
    unfold putBy
    simp
  | cons g gs ih =>
    unfold putBy
    rw [List.map_cons, List.nodup_cons] at h
    by_cases hg : key g = key f
    · rw [if_pos hg]
      rw [List.map_cons, List.nodup_cons]
      refine ⟨?_, h.2⟩
      rw [← hg]
      exact h.1
    · rw [if_neg hg]
      rw [List.map_cons, List.nodup_cons]
      refine ⟨?_, ih h.2⟩
      intro hx
      rcases mem_map_key_putBy key gs f (key g) hx with h1 | h1
      · exact h.1 h1
      · exact hg h1

theorem nodup_keys_applyPuts {α κ : Type} (key : α → κ) [DecidableEq κ]
    (tbl : List α) (ps : List α) (h : (tbl.map key).Nodup) :
    ((applyPuts key tbl ps).map key).Nodup := by
  induction ps generalizing tbl with
  | nil => exact h
  | cons p ps ih =>
    unfold applyPuts
    rw [List.foldl_cons]
    exact ih (putBy key tbl p) (nodup_keys_putBy key tbl p h)

theorem findBy_applyPuts {α κ : Type} (key : α → κ) [DecidableEq κ]
    (tbl : List α) (ps : List α) (k : κ) :
    findBy key (applyPuts key tbl ps) k =
      (ps.reverse.find? (fun p => decide (key p = k))).or (findBy key tbl k) := by
  induction ps generalizing tbl with
  | nil =>
    unfold applyPuts
    simp
  | cons p ps ih =>
    unfold applyPuts
    rw [List.foldl_cons]
    have := ih (putBy key tbl p)
    unfold applyPuts at this
    rw [this, findBy_putBy]
    rw [List.reverse_cons, List.find?_append, Option.or_assoc]
    congr 1
    by_cases hk : key p = k
    · simp [hk]
    · have hd : decide (key p = k) = false := decide_eq_false hk
      simp only [List.find?_cons, hd, List.find?_nil, Option.none_or]
      rw [if_neg hk]

theorem foldl_addFamily (s : DBState) (ps : List Family) :
    ps.foldl (fun conn f => (addFamily conn f).2) (some s) =
      some { s with families := applyPuts Family.familyName s.families ps } := by
  induction ps generalizing s with
  | nil => rfl
  | cons p ps ih =>
    rw [List.foldl_cons]
    have h1 : (addFamily (some s) p).2 = some { s with families := putFamily s.families p } := rfl
    rw [h1, ih]
    rfl

theorem foldl_addCar (s : DBState) (qs : List Car) :
    qs.foldl (fun conn c => (addCar conn c).2) (some s) =
      some { s with cars := applyPuts Car.id s.cars qs } := by
  induction qs generalizing s with
  | nil => rfl
  | cons q qs ih =>
    rw [List.foldl_cons]
    have h1 : (addCar (some s) q).2 = some { s with cars := putCar s.cars q } := rfl
    rw [h1, ih]
    rfl

/-- C4: for every sequence of put calls (addFamily / addCar) on a Family or
Car table, possibly with repeated natural keys, the table afterwards has
exactly one row per distinct natural key (the key column stays Nodup), and
looking any key up yields the value of the most recent put with that key, or
the pre-existing row if the key was never put — put is insert-or-full-replace
and never duplicates. -/
theorem put_upsert_one_row_per_key (s : DBState) (ps : List Family) (qs : List Car)
    (hf : (s.families.map Family.familyName).Nodup) (hc : (s.cars.map Car.id).Nodup) :
    ps.foldl (fun conn f => (addFamily conn f).2) (some s) =
      some { s with families := applyPuts Family.familyName s.families ps } ∧
    ((applyPuts Family.familyName s.families ps).map Family.familyName).Nodup ∧
    (∀ k, findBy Family.familyName (applyPuts Family.familyName s.families ps) k =
      (ps.reverse.find? (fun p => decide (p.familyName = k))).or
        (findBy Family.familyName s.families k)) ∧
    qs.foldl (fun conn c => (addCar conn c).2) (some s) =
      some { s with cars := applyPuts Car.id s.cars qs } ∧
    ((applyPuts Car.id s.cars qs).map Car.id).Nodup ∧
    (∀ k, findBy Car.id (applyPuts Car.id s.cars qs) k =
      (qs.reverse.find? (fun q => decide (q.id = k))).or (findBy Car.id s.cars k)) := by
  refine ⟨foldl_addFamily s ps, nodup_keys_applyPuts _ _ _ hf,
    fun k => findBy_applyPuts _ _ _ k, foldl_addCar s qs,
    nodup_keys_applyPuts _ _ _ hc, fun k => findBy_applyPuts _ _ _ k⟩

/-- Concrete instantiation of the C4 theorem: three family puts with a
repeated key "A" and two car puts with the repeated key "c1". -/
theorem put_upsert_one_row_per_key_witness :
    ([(⟨"A", none, "p1"⟩ : Family), ⟨"B", none, "p2"⟩, ⟨"A", none, "p3"⟩].foldl
        (fun conn f => (addFamily conn f).2) (some emptyDB) =
      some { emptyDB with families := (applyPuts Family.familyName emptyDB.families
        [⟨"A", none, "p1"⟩, ⟨"B", none, "p2"⟩, ⟨"A", none, "p3"⟩]) }) ∧
    ((applyPuts Family.familyName emptyDB.families
        [(⟨"A", none, "p1"⟩ : Family), ⟨"B", none, "p2"⟩, ⟨"A", none, "p3"⟩]).map
        Family.familyName).Nodup ∧
    (∀ k, findBy Family.familyName (applyPuts Family.familyName emptyDB.families
        [(⟨"A", none, "p1"⟩ : Family), ⟨"B", none, "p2"⟩, ⟨"A", none, "p3"⟩]) k =
      ([(⟨"A", none, "p1"⟩ : Family), ⟨"B", none, "p2"⟩, ⟨"A", none, "p3"⟩].reverse.find?
        (fun p => decide (p.familyName = k))).or
        (findBy Family.familyName emptyDB.families k)) ∧
    ([(⟨"c1", "x"⟩ : Car), ⟨"c1", "y"⟩].foldl
        (fun conn c => (addCar conn c).2) (some emptyDB) =
      some { emptyDB with cars := (applyPuts Car.id emptyDB.cars [⟨"c1", "x"⟩, ⟨"c1", "y"⟩]) }) ∧
    ((applyPuts Car.id emptyDB.cars [(⟨"c1", "x"⟩ : Car), ⟨"c1", "y"⟩]).map Car.id).Nodup ∧
    (∀ k, findBy Car.id (applyPuts Car.id emptyDB.cars [(⟨"c1", "x"⟩ : Car), ⟨"c1", "y"⟩]) k =
      ([(⟨"c1", "x"⟩ : Car), ⟨"c1", "y"⟩].reverse.find? (fun q => decide (q.id = k))).or
        (findBy Car.id emptyDB.cars k)) :=
  put_upsert_one_row_per_key emptyDB
    [⟨"A", none, "p1"⟩, ⟨"B", none, "p2"⟩, ⟨"A", none, "p3"⟩]
    [⟨"c1", "x"⟩, ⟨"c1", "y"⟩] (by decide) (by decide)

theorem bulkPutLoop_fail {α κ : Type} (key : α → κ) [DecidableEq κ] (ok : α → Bool)
    (ps : List α) (tbl : List α) (h : ∃ f ∈ ps, ok f = false) :
    bulkPutLoop key ok tbl ps = none := by
  induction ps generalizing tbl with
  | nil => simp at h
  | cons p ps ih =>
    unfold bulkPutLoop
    cases hp : ok p with
    | false => simp [hp]
    | true =>
      simp only [hp, if_true]
      apply ih
      obtain ⟨f, hf, hok⟩ := h
      rcases List.mem_cons.mp hf with h1 | h1
      · subst h1
        rw [hp] at hok
        cases hok
      · exact ⟨f, h1, hok⟩

theorem bulkPutLoop_ok {α κ : Type} (key : α → κ) [DecidableEq κ] (ok : α → Bool)
    (ps : List α) (tbl : List α) (h : ∀ f ∈ ps, ok f = true) :
    bulkPutLoop key ok tbl ps = some (applyPuts key tbl ps) := by
  induction ps generalizing tbl with
  | nil => rfl
  | cons p ps ih =>
    unfold bulkPutLoop
    have hp := h p (List.mem_cons_self p ps)
    simp only [hp, if_true]
    exact ih (putBy key tbl p) (fun f hf => h f (List.mem_cons_of_mem p hf))

theorem bulkAddFamilies_some (s : DBState) (fams : List Family) (ok : Family → Bool) :
    bulkAddFamilies (some s) fams ok =
      match bulkPutLoop Family.familyName ok s.families fams with
      | some tbl => (.ok (), some { s with families := tbl })
      | none => (.error .storage, some s) := rfl

theorem bulkAddCars_some (s : DBState) (cars : List Car) (ok : Car → Bool) :
    bulkAddCars (some s) cars ok =
      match bulkPutLoop Car.id ok s.cars cars with
      | some tbl => (.ok (), some { s with cars := tbl })
      | none => (.error .storage, some s) := rfl

/-- C3: bulkPut (bulkAddFamilies / bulkAddCars) is all-or-nothing: if any
individual put in the batch fails, the call rejects and the table state is
unchanged (the committed connection state is exactly the input state); when
every put succeeds, the call resolves and all puts are applied. -/
theorem bulkAdd_all_or_nothing (s : DBState) (fams : List Family) (okF : Family → Bool)
    (cars : List Car) (okC : Car → Bool) :
    ((∃ f ∈ fams, okF f = false) →
      bulkAddFamilies (some s) fams okF = (.error .storage, some s)) ∧
    ((∀ f ∈ fams, okF f = true) →
      bulkAddFamilies (some s) fams okF =
        (.ok (), some { s with families := (applyPuts Family.familyName s.families fams) })) ∧
    ((∃ c ∈ cars, okC c = false) →
      bulkAddCars (some s) cars okC = (.error .storage, some s)) ∧
    ((∀ c ∈ cars, okC c = true) →
      bulkAddCars (some s) cars okC =
        (.ok (), some { s with cars := (applyPuts Car.id s.cars cars) })) := by
  refine ⟨fun h => ?_, fun h => ?_, fun h => ?_, fun h => ?_⟩
  · rw [bulkAddFamilies_some, bulkPutLoop_fail Family.familyName okF fams s.families h]
  · rw [bulkAddFamilies_some, bulkPutLoop_ok Family.familyName okF fams s.families h]
  · rw [bulkAddCars_some, bulkPutLoop_fail Car.id okC cars s.cars h]
  · rw [bulkAddCars_some, bulkPutLoop_ok Car.id okC cars s.cars h]

/-- Concrete instantiation of the C3 theorem: a batch with one invalid record
commits nothing; an all-valid batch commits every record. -/
theorem bulkAdd_all_or_nothing_witness :
    bulkAddFamilies (some emptyDB) [⟨"A", none, "p1"⟩, ⟨"", none, "bad"⟩]
      (fun f => decide (f.familyName ≠ "")) = (.error .storage, some emptyDB) ∧
    bulkAddFamilies (some emptyDB) [⟨"A", none, "p1"⟩, ⟨"B", none, "p2"⟩]
      (fun _ => true) =
      (.ok (), some { emptyDB with families := (applyPuts Family.familyName emptyDB.families
        [⟨"A", none, "p1"⟩, ⟨"B", none, "p2"⟩]) }) ∧
    bulkAddCars (some emptyDB) [⟨"c1", "x"⟩, ⟨"", "bad"⟩]
      (fun c => decide (c.id ≠ "")) = (.error .storage, some emptyDB) ∧
    bulkAddCars (some emptyDB) [⟨"c1", "x"⟩] (fun _ => true) =
      (.ok (), some { emptyDB with cars := (applyPuts Car.id emptyDB.cars [⟨"c1", "x"⟩]) }) :=
  ⟨(bulkAdd_all_or_nothing emptyDB _ _ [] (fun _ => true)).1 (by decide),
    (bulkAdd_all_or_nothing emptyDB _ _ [] (fun _ => true)).2.1 (by decide),
    (bulkAdd_all_or_nothing emptyDB [] (fun _ => true) _ _).2.2.1 (by decide),
    (bulkAdd_all_or_nothing emptyDB [] (fun _ => true) _ _).2.2.2 (by decide)⟩

theorem clearAllData_some (s : DBState) (ok : StoreName → Bool) :
    clearAllData (some s) ok =
      if ok .families && ok .cars && ok .savedStates && ok .savedParking then
        (.ok (), some (clearTables s))
      else
        (.error .storage, some s) := rfl

/-- C6: clearAllData clears all four tables in one transaction: on success
every table (families, cars, savedStates, savedParking) is empty; if any
individual clear fails, the transaction aborts, all four tables are left
unchanged, and the error is surfaced; running it on already-empty tables is a
no-op success (the resulting state is the input state). -/
theorem clearAllData_spec (s : DBState) (ok : StoreName → Bool) :
    ((∀ n : StoreName, ok n = true) →
      clearAllData (some s) ok = (.ok (), some (clearTables s)) ∧
      (clearTables s).families = [] ∧ (clearTables s).cars = [] ∧
      (clearTables s).savedStates.rows = [] ∧ (clearTables s).savedParking.rows = []) ∧
    ((∃ n : StoreName, ok n = false) →
      clearAllData (some s) ok = (.error .storage, some s)) ∧
    (s.families = [] → s.cars = [] → s.savedStates.rows = [] → s.savedParking.rows = [] →
      (∀ n : StoreName, ok n = true) →
      clearAllData (some s) ok = (.ok (), some s)) := by
  refine ⟨fun h => ?_, fun h => ?_, fun h1 h2 h3 h4 h => ?_⟩
  · refine ⟨?_, rfl, rfl, rfl, rfl⟩
    rw [clearAllData_some, h .families, h .cars, h .savedStates, h .savedParking]
    rfl
  · rw [clearAllData_some]
    obtain ⟨n, hn⟩ := h
    cases n
    all_goals simp [hn]
  · have hct : clearTables s = s := by
      cases s with
      | mk fam car st pk =>
        cases st with
        | mk strows stnext =>
          cases pk with
          | mk pkrows pknext =>
            simp only at h1 h2 h3 h4
            subst h1
            subst h2
            subst h3
            subst h4
            rfl
    rw [clearAllData_some, h .families, h .cars, h .savedStates, h .savedParking, hct]
    rfl

/-- Concrete instantiation of the C6 theorem on the empty store: an
all-success run, a run whose cars clear fails, and the no-op case. -/
theorem clearAllData_spec_witness :
    (clearAllData (some emptyDB) (fun _ => true) = (.ok (), some (clearTables emptyDB)) ∧
      (clearTables emptyDB).families = [] ∧ (clearTables emptyDB).cars = [] ∧
      (clearTables emptyDB).savedStates.rows = [] ∧
      (clearTables emptyDB).savedParking.rows = []) ∧
    clearAllData (some emptyDB) (fun n => decide (n ≠ StoreName.cars)) =
      (.error .storage, some emptyDB) ∧
    clearAllData (some emptyDB) (fun _ => true) = (.ok (), some emptyDB) :=
  ⟨(clearAllData_spec emptyDB (fun _ => true)).1 (fun _ => rfl),
    (clearAllData_spec emptyDB (fun n => decide (n ≠ StoreName.cars))).2.1
      ⟨StoreName.cars, rfl⟩,
    (clearAllData_spec emptyDB (fun _ => true)).2.2 rfl rfl rfl rfl (fun _ => rfl)⟩

theorem find?_key_eq_of_nodup {α κ : Type} (key : α → κ) [DecidableEq κ]
    {l : List α} {a : α} (hnd : (l.map key).Nodup) (ha : a ∈ l) :
    l.find? (fun x => decide (key x = key a)) = some a := by
  induction l with
  | nil => cases ha
  | cons h t ih =>
    rw [List.map_cons, List.nodup_cons] at hnd
    rcases List.mem_cons.mp ha with h1 | h1
    · subst h1
      simp [List.find?_cons]
    · by_cases hk : key h = key a
      · exfalso
        apply hnd.1
        rw [hk]
        exact List.mem_map_of_mem key h1
      · have hd : decide (key h = key a) = false := decide_eq_false hk
        simp only [List.find?_cons, hd]
        exact ih hnd.2 h1

/-- C7: opening a fresh store (on-disk version 0) with seed families inserts
each seed family at its natural key with order defaulted to its position index
in the seed sequence when the attribute is absent, and preserved when present
(order becomes some (order-or-index) in either case). -/
theorem openDB_seed_order_default (seeds : List Family) (seedCars : List Car)
    (i : Nat) (f : Family)
    (hnd : (seeds.map Family.familyName).Nodup) (hi : seeds[i]? = some f) :
    openDB none 0 emptyDB seeds seedCars =
      (.ok (), some (runUpgrade 0 seeds seedCars emptyDB)) ∧
    findBy Family.familyName (runUpgrade 0 seeds seedCars emptyDB).families f.familyName
      = some { f with order := some (f.order.getD (Int.ofNat i)) } := by
  refine ⟨rfl, ?_⟩
  have hfam : (runUpgrade 0 seeds seedCars emptyDB).families =
      applyPuts Family.familyName []
        (seeds.enum.map
          (fun p => { p.2 with order := some (p.2.order.getD (Int.ofNat p.1)) })) := by
    unfold runUpgrade applyPuts
    rw [if_pos (by omega)]
    rw [List.foldl_map]
    rfl
  rw [hfam, findBy_applyPuts]
  have hbase : findBy Family.familyName ([] : List Family) f.familyName = none := rfl
  rw [hbase, Option.or_none]
  have henum : seeds.enum[i]? = some (i, f) := by
    rw [List.getElem?_enum, hi]
    rfl
  have hmem : ({ f with order := some (f.order.getD (Int.ofNat i)) } : Family) ∈
      (seeds.enum.map
        (fun p => { p.2 with order := some (p.2.order.getD (Int.ofNat p.1)) })).reverse := by
    rw [List.mem_reverse, List.mem_map]
    exact ⟨(i, f), List.getElem?_mem henum, rfl⟩
  have hndrev : (((seeds.enum.map
      (fun p => { p.2 with order := some (p.2.order.getD (Int.ofNat p.1)) })).reverse).map
      Family.familyName).Nodup := by
    rw [List.map_reverse, List.nodup_reverse, List.map_map]
    have he : (Family.familyName ∘
        (fun p : Nat × Family => { p.2 with order := some (p.2.order.getD (Int.ofNat p.1)) })) =
        (Family.familyName ∘ Prod.snd) := rfl
    rw [he, ← List.map_map, List.enum_map_snd]
    exact hnd
  exact find?_key_eq_of_nodup Family.familyName hndrev hmem

/-- Concrete instantiation of the C7 theorem: seeding with
familyName A (no order) and familyName B (order 5) yields A with order 0 and
B with order 5. -/
theorem openDB_seed_order_default_witness :
    (openDB none 0 emptyDB [⟨"A", none, "pa"⟩, ⟨"B", some 5, "pb"⟩] [] =
      (.ok (), some (runUpgrade 0 [⟨"A", none, "pa"⟩, ⟨"B", some 5, "pb"⟩] [] emptyDB)) ∧
      findBy Family.familyName
        (runUpgrade 0 [⟨"A", none, "pa"⟩, ⟨"B", some 5, "pb"⟩] [] emptyDB).families "A"
        = some ⟨"A", some 0, "pa"⟩) ∧
    findBy Family.familyName
      (runUpgrade 0 [⟨"A", none, "pa"⟩, ⟨"B", some 5, "pb"⟩] [] emptyDB).families "B"
      = some ⟨"B", some 5, "pb"⟩ :=
  ⟨openDB_seed_order_default [⟨"A", none, "pa"⟩, ⟨"B", some 5, "pb"⟩] [] 0
      ⟨"A", none, "pa"⟩ (by decide) rfl,
    (openDB_seed_order_default [⟨"A", none, "pa"⟩, ⟨"B", some 5, "pb"⟩] [] 1
      ⟨"B", some 5, "pb"⟩ (by decide) rfl).2⟩

/-- C9: every non-open operation of the store — every get, getAll, put,
bulkPut, delete, clear and append entry point — fails fast with the not-open
rejection and leaves the connection state unchanged (still none) when invoked
before openDB has succeeded. -/
theorem notOpen_fail_fast :
    (∀ k, getFamily none k = (.error .notOpen, none)) ∧
    getAllFamilies none = (.error .notOpen, none) ∧
    (∀ f, addFamily none f = (.error .notOpen, none)) ∧
    (∀ f, updateFamily none f = (.error .notOpen, none)) ∧
    (∀ fs ok, bulkAddFamilies none fs ok = (.error .notOpen, none)) ∧
    (∀ k, deleteFamily none k = (.error .notOpen, none)) ∧
    clearFamilies none = (.error .notOpen, none) ∧
    (∀ k, getCar none k = (.error .notOpen, none)) ∧
    getAllCars none = (.error .notOpen, none) ∧
    (∀ c, addCar none c = (.error .notOpen, none)) ∧
    (∀ c, updateCar none c = (.error .notOpen, none)) ∧
    (∀ cs ok, bulkAddCars none cs ok = (.error .notOpen, none)) ∧
    (∀ k, deleteCar none k = (.error .notOpen, none)) ∧
    clearCars none = (.error .notOpen, none) ∧
    (∀ i, getSavedState none i = (.error .notOpen, none)) ∧
    getAllSavedStates none = (.error .notOpen, none) ∧
    (∀ d l, addSavedState none d l = (.error .notOpen, none)) ∧
    (∀ i, getSavedParking none i = (.error .notOpen, none)) ∧
    getAllSavedParking none = (.error .notOpen, none) ∧
    (∀ d l, addSavedParking none d l = (.error .notOpen, none)) ∧
    (∀ i, deleteSavedState none i = (.error .notOpen, none)) ∧
    (∀ i, deleteSavedParking none i = (.error .notOpen, none)) ∧
    (∀ ok, clearAllData none ok = (.error .notOpen, none)) :=
  ⟨fun _ => rfl, rfl, fun _ => rfl, fun _ => rfl, fun _ _ => rfl, fun _ => rfl, rfl,
    fun _ => rfl, rfl, fun _ => rfl, fun _ => rfl, fun _ _ => rfl, fun _ => rfl, rfl,
    fun _ => rfl, rfl, fun _ _ => rfl, fun _ => rfl, rfl, fun _ _ => rfl,
    fun _ => rfl, fun _ => rfl, fun _ => rfl⟩
